import Mathlib

/-!
# Verification of the CAAS unit provisioner root loop

Shallow embedding of `src/worker/caasunitprovisioner/worker.go` (package
`caasunitprovisioner`).  The provisioner's reconciliation loop is embedded as a
pure state-transition function over the worker registry that emits a trace of
the external calls it performs (broker calls, worker construction, the removal
handshake).  The mutex-protected registry helpers are additionally embedded as
a small-step interleaving machine to settle the concurrency property about
torn reads.

Conventions:
* Go `error` values are the inductive `GoError`; a `nil` error is `none` in an
  `Option GoError`, or the `Except.ok` branch where the Go function also
  returns a value.
* Go interfaces supplied as capabilities are either behaviour oracles inside
  `LoopEnv` (for the loop) or presence markers `Option Unit` (for
  `Config.Validate`, which only compares them against `nil`).
* The Go `map[string]*applicationWorker`, whose zero value is the `nil` map,
  is `Option` of an association list: `none` is the nil map.
-/

namespace CaasUnitProvisioner

/-- `core/life`: lifecycle value returned by `LifeGetter.Life`. -/
inductive Life where
  | alive
  | dying
  | dead
deriving DecidableEq, Repr

/-- A Go `error` value, as far as this package inspects one: the loop only
distinguishes not-found errors (`errors.IsNotFound`), `Config.Validate`
produces not-valid errors (`errors.NotValidf`), and everything else is opaque
apart from its message. -/
inductive GoError where
  | notFound (msg : String)
  | notValid (msg : String)
  | other (msg : String)
deriving DecidableEq, Repr

/-- `errors.IsNotFound` from `github.com/juju/errors`. -/
def GoError.isNotFound : GoError → Bool
  | .notFound _ => true
  | _ => false

/-- `errors.Trace` from `github.com/juju/errors`: records a stack location on
the error; the error's identity (type and message) is unchanged, which is all
the loop's callers can observe, so it is the identity here. -/
def errorsTrace (e : GoError) : GoError := e

/-- Handle of a per-application worker, as the root loop sees it: built by
`newApplicationWorker` from the application name and the `jujuManagedUnits`
flag (the remaining constructor arguments are the capability interfaces passed
through unchanged, and the fresh `appRemoved` channel owned by the worker). -/
structure AppWorker where
  appName : String
  jujuManagedUnits : Bool
deriving DecidableEq, Repr

/-! ## The worker registry (`p.appWorkers`, a Go map with a mutex)

The Go map is embedded as an association list wrapped in `Option`; `none` is
the zero-value `nil` map.  Go map semantics: assignment replaces any previous
binding for the key, deletion of an absent key is a no-op, lookup of an absent
key reports `ok = false` (here: `none`). -/

/-- Lookup in the underlying map: `aw, ok := m[k]`. -/
def assocLookup (m : List (String × AppWorker)) (k : String) : Option AppWorker :=
  (m.find? (fun p => p.1 = k)).map (fun p => p.2)

/-- Map assignment `m[k] = w`: replaces any existing binding for `k`. -/
def assocInsert (m : List (String × AppWorker)) (k : String) (w : AppWorker) :
    List (String × AppWorker) :=
  (k, w) :: m.filter (fun p => ¬ p.1 = k)

/-- Map deletion `delete(m, k)`. -/
def assocErase (m : List (String × AppWorker)) (k : String) :
    List (String × AppWorker) :=
  m.filter (fun p => ¬ p.1 = k)

/-- `p.appWorkers : map[string]*applicationWorker`; `none` is the nil map. -/
abbrev Registry := Option (List (String × AppWorker))

/-- `len(p.appWorkers)` (the length of a nil map is 0). -/
def registryLen : Registry → Nat
  | none => 0
  | some m => m.length

/-- `provisioner.saveApplicationWorker` (worker.go:97-105): under the mutex,
allocate the map if it is nil, then assign `p.appWorkers[appName] = aw`. -/
def saveApplicationWorker (r : Registry) (appName : String) (aw : AppWorker) : Registry :=
  some (assocInsert (r.getD []) appName aw)

/-- `provisioner.deleteApplicationWorker` (worker.go:107-112): under the
mutex, `delete(p.appWorkers, appName)` (a no-op on the nil map). -/
def deleteApplicationWorker (r : Registry) (appName : String) : Registry :=
  match r with
  | none => none
  | some m => some (assocErase m appName)

/-- `provisioner.getApplicationWorker` (worker.go:114-123): under the mutex,
return `(nil, false)` when `len(p.appWorkers) == 0`, else the map lookup. -/
def getApplicationWorker (r : Registry) (appName : String) : Option AppWorker :=
  if registryLen r = 0 then none
  else assocLookup (r.getD []) appName

/-! ## The reconciliation loop (`provisioner.loop`, worker.go:125-209)

The loop body for one application name becomes `processApp`; one change batch
becomes `processBatch`; the select loop over the watch channel becomes
`loopRun`, driven by a list of wake-up messages.  External calls are recorded
in a trace of `Event`s in the order the Go code makes them. -/

/-- One observable external action of the loop, in program order. -/
inductive Event where
  /-- A batch of names was received from `w.Changes()`. -/
  | readBatch (apps : List String)
  /-- `p.config.ContainerBroker.UnexposeService(appId)` was called. -/
  | unexposeService (a : String)
  /-- `p.config.ContainerBroker.DeleteService(appId)` was called. -/
  | deleteService (a : String)
  /-- The removal handshake sent on `w.appRemoved`. -/
  | sendRemoved (a : String)
  /-- The removal handshake closed `w.appRemoved` (worker already dying). -/
  | closeRemoved (a : String)
  /-- `worker.Stop(w)` was called for the application's worker. -/
  | stopWorker (a : String)
  /-- `logger.Errorf("stopping application worker for %v: %v", ...)`. -/
  | logStopError (a : String) (e : GoError)
  /-- `p.config.ApplicationGetter.ApplicationConfig(appId)` was called. -/
  | applicationConfig (a : String)
  /-- `newApplicationWorker(appId, ...)` was called. -/
  | newWorker (a : String)
  /-- `p.saveApplicationWorker(appId, w)` was called. -/
  | saveWorker (a : String)
  /-- `p.catacomb.Add(w)` was called (worker.go:205). -/
  | addWorker (a : String)
deriving DecidableEq, Repr

/-- `caas.JujuManagedUnits`, the config key read at worker.go:187. -/
def jujuManagedUnitsKey : String := "juju-managed-units"

/-- An application config as the loop consumes it: only
`cfg.GetBool(key, default)` is called. -/
structure AppConfig where
  GetBool : String → Bool → Bool

/-- Behaviour of the capability interfaces and of the two races the loop can
lose or win, as oracles.  The first five fields are the collaborator calls the
loop makes; the last three resolve, per worker, the handshake select
(worker.go:161-167), the `worker.Stop` outcome (worker.go:168) and the
`p.catacomb.Add` outcome whose error the code discards (worker.go:205). -/
structure LoopEnv where
  life : String → Except GoError Life
  unexposeService : String → Option GoError
  deleteService : String → Option GoError
  applicationConfig : String → Except GoError AppConfig
  newWorkerErr : String → Bool → Option GoError
  dyingAtHandshake : AppWorker → Bool
  stopResult : AppWorker → Option GoError
  addResult : AppWorker → Option GoError

/-- Result of running a piece of the loop: the trace of external calls, the
registry afterwards, and the loop's return value (`some e` when the loop
returns the error `e`, `none` while it keeps running). -/
structure StepOut where
  events : List Event
  reg : Registry
  err : Option GoError
deriving DecidableEq, Repr

/-- Body of `for _, appId := range apps` (worker.go:142-206) for one name. -/
def processApp (env : LoopEnv) (r : Registry) (appId : String) : StepOut :=
  match env.life appId with
  | .error e =>
    if e.isNotFound then
      -- worker.go:144-173: the application was deleted upstream.
      match env.unexposeService appId with
      | some err => ⟨[.unexposeService appId], r, some (errorsTrace err)⟩
      | none =>
        match env.deleteService appId with
        | some err =>
            ⟨[.unexposeService appId, .deleteService appId], r, some (errorsTrace err)⟩
        | none =>
          match getApplicationWorker r appId with
          | some w =>
            -- worker.go:161-167: race the appRemoved send against the
            -- worker's own catacomb dying; on dying-first, close instead.
            let hs := if env.dyingAtHandshake w then Event.closeRemoved appId
                      else Event.sendRemoved appId
            -- worker.go:168-170: stop; a stop error is only logged.
            let stopEvs :=
              match env.stopResult w with
              | some se => [Event.stopWorker appId, Event.logStopError appId se]
              | none => [Event.stopWorker appId]
            ⟨[.unexposeService appId, .deleteService appId] ++ hs :: stopEvs,
             deleteApplicationWorker r appId, none⟩
          | none => ⟨[.unexposeService appId, .deleteService appId], r, none⟩
    else ⟨[], r, some (errorsTrace e)⟩
  | .ok appLife =>
    -- worker.go:178-182: already watching, or dead and never watched.
    if (getApplicationWorker r appId).isSome ∨ appLife = Life.dead then
      ⟨[], r, none⟩
    else
      match env.applicationConfig appId with
      | .error e => ⟨[.applicationConfig appId], r, some (errorsTrace e)⟩
      | .ok cfg =>
        let jmu := cfg.GetBool jujuManagedUnitsKey false
        match env.newWorkerErr appId jmu with
        | some e => ⟨[.applicationConfig appId, .newWorker appId], r, some (errorsTrace e)⟩
        | none =>
          let w : AppWorker := ⟨appId, jmu⟩
          -- worker.go:204-205: register, then attach to the catacomb.  The
          -- error returned by `p.catacomb.Add(w)` (env.addResult w) is
          -- discarded by the source: line 205 does not bind it.
          ⟨[.applicationConfig appId, .newWorker appId, .saveWorker appId, .addWorker appId],
           saveApplicationWorker r appId w, none⟩

/-- One change batch (worker.go:142-206): names processed sequentially in
order; the first error returns from `loop` at once. -/
def processBatch (env : LoopEnv) (r : Registry) : List String → StepOut
  | [] => ⟨[], r, none⟩
  | a :: rest =>
    let o := processApp env r a
    match o.err with
    | some _ => o
    | none =>
      let o2 := processBatch env o.reg rest
      ⟨o.events ++ o2.events, o2.reg, o2.err⟩

/-- One wake-up of the select at worker.go:135-141: the catacomb dying, the
watch channel closing (`ok == false`), or a batch arriving. -/
inductive LoopMsg where
  | dying (e : GoError)
  | closed
  | batch (apps : List String)

/-- The select loop (worker.go:134-208) driven by a finite list of wake-ups;
`err = none` with the list exhausted means the loop is still blocked in the
select. -/
def loopRun (env : LoopEnv) (r : Registry) : List LoopMsg → StepOut
  | [] => ⟨[], r, none⟩
  | .dying e :: _ => ⟨[], r, some e⟩
  | .closed :: _ => ⟨[], r, some (GoError.other "watcher closed channel")⟩
  | .batch apps :: ms =>
    let o := processBatch env r apps
    match o.err with
    | some e => ⟨Event.readBatch apps :: o.events, o.reg, some e⟩
    | none =>
      let o2 := loopRun env o.reg ms
      ⟨(Event.readBatch apps :: o.events) ++ o2.events, o2.reg, o2.err⟩

/-- Modelled from the spec: `catacomb.Wait` (package `worker/catacomb`, not
under src/) — "`Wait() -> error`: blocks until the loop and all attached
children have finished; returns the first fatal error encountered (nil on
clean shutdown)".  The loop's return value is the catacomb's terminal error,
so `Wait` reports exactly the loop's error. -/
def provisionerWait (o : StepOut) : Option GoError := o.err

/-! ## `Config`, `Config.Validate` and `NewWorker` (worker.go:20-73)

`Config.Validate` only compares each capability field against `nil`, so each
interface field is embedded as a presence marker `Option Unit` (`none` is the
nil interface). -/

/-- `Config` (worker.go:21-31): the eight collaborator capability fields. -/
structure Config where
  ApplicationGetter : Option Unit
  ApplicationUpdater : Option Unit
  ServiceBroker : Option Unit
  ContainerBroker : Option Unit
  PodSpecGetter : Option Unit
  LifeGetter : Option Unit
  UnitGetter : Option Unit
  UnitUpdater : Option Unit
deriving DecidableEq, Repr

/-- `Config.Validate` (worker.go:34-60): the eight nil checks in source
order; `errors.NotValidf("missing F")` becomes `GoError.notValid "missing F"`. -/
def Config.Validate (config : Config) : Option GoError :=
  if config.ApplicationGetter = none then some (.notValid "missing ApplicationGetter")
  else if config.ApplicationUpdater = none then some (.notValid "missing ApplicationUpdater")
  else if config.ServiceBroker = none then some (.notValid "missing ServiceBroker")
  else if config.ContainerBroker = none then some (.notValid "missing ContainerBroker")
  else if config.PodSpecGetter = none then some (.notValid "missing PodSpecGetter")
  else if config.LifeGetter = none then some (.notValid "missing LifeGetter")
  else if config.UnitGetter = none then some (.notValid "missing UnitGetter")
  else if config.UnitUpdater = none then some (.notValid "missing UnitUpdater")
  else none

/-- The provisioner value `&provisioner{config: config}` as `NewWorker`
returns it. -/
structure Provisioner where
  config : Config
deriving DecidableEq, Repr

/-- Outcome of `NewWorker`: the returned worker (nil or the provisioner), the
returned error, and whether the loop task was started. -/
structure NewWorkerOut where
  worker : Option Provisioner
  err : Option GoError
  loopStarted : Bool
deriving DecidableEq, Repr

/-- `NewWorker` (worker.go:63-73): validate, fail fast on error, otherwise
invoke the catacomb on `p.loop`.  Modelled from the spec for the invoke step:
`catacomb.Invoke` (package `worker/catacomb`, not under src/) starts the
`Work` task; its own failure modes are outside this model, so the valid
branch starts the loop and returns no error. -/
def NewWorker (config : Config) : NewWorkerOut :=
  match config.Validate with
  | some e => ⟨none, some (errorsTrace e), false⟩
  | none => ⟨some ⟨config⟩, none, true⟩

/-! ## The mutex-protected registry as an interleaving machine

Worker.go:97-123 guard every access to `p.appWorkers` with `p.mu`.  To state
the torn-read property, each helper is split into its individual shared-memory
accesses (the "tearable" grain): `saveApplicationWorker` is nil-check/allocate
then assign; `getApplicationWorker` is the `len` read (which may return early)
then the map lookup; `deleteApplicationWorker` is one deletion.  Threads
interleave freely subject to the mutex. -/

/-- A registry operation some caller wants to perform. -/
inductive RegOp where
  | save (k : String) (w : AppWorker)
  | del (k : String)
  | get (k : String)
deriving DecidableEq, Repr

/-- Number of critical-section micro-steps of each operation. -/
def RegOp.steps : RegOp → Nat
  | .save _ _ => 2
  | .del _ => 1
  | .get _ => 2

/-- One caller: its operation, its program counter inside the operation
(`pc = op.steps` means finished), and for `get` the returned value. -/
structure Thread where
  op : RegOp
  pc : Nat
  ret : Option AppWorker
deriving DecidableEq, Repr

/-- The shared state: who holds `p.mu` (by thread index), the map, and the
callers. -/
structure Machine where
  lock : Option Nat
  reg : Registry
  threads : List Thread
deriving DecidableEq, Repr

/-- Replace thread `i`. -/
def Machine.setThread (m : Machine) (i : Nat) (t : Thread) : Machine :=
  { m with threads := m.threads.set i t }

/-- The next critical-section micro-step of thread `i`.  Each branch is one
shared-memory access of the corresponding helper in worker.go:97-123; the last
micro-step of an operation also releases the mutex (the deferred unlock). -/
def microStep (m : Machine) (i : Nat) : Machine :=
  match m.threads[i]? with
  | none => m
  | some t =>
    match t.op, t.pc with
    | .save _ _, 0 =>
        -- worker.go:101-103: if the map is nil, allocate it.
        { m.setThread i { t with pc := 1 } with reg := some (m.reg.getD []) }
    | .save k w, 1 =>
        -- worker.go:104: p.appWorkers[appName] = aw; then unlock.
        { m.setThread i { t with pc := 2 } with
            reg := some (assocInsert (m.reg.getD []) k w), lock := none }
    | .del k, 0 =>
        -- worker.go:111: delete(p.appWorkers, appName); then unlock.
        { m.setThread i { t with pc := 1 } with
            reg := deleteApplicationWorker m.reg k, lock := none }
    | .get _, 0 =>
        -- worker.go:118-120: read len; return (nil, false) early on 0.
        if registryLen m.reg = 0 then
          { m.setThread i { t with pc := 2, ret := none } with lock := none }
        else m.setThread i { t with pc := 1 }
    | .get k, 1 =>
        -- worker.go:121: aw, ok := p.appWorkers[appId]; then unlock.
        { m.setThread i { t with pc := 2, ret := assocLookup (m.reg.getD []) k } with
            lock := none }
    | _, _ => m

/-- Interleaved execution: any not-yet-started thread may acquire the free
mutex; the holder may run its next micro-step. -/
inductive MStep : Machine → Machine → Prop
  | acquire (m : Machine) (i : Nat) (t : Thread) :
      m.lock = none → m.threads[i]? = some t → t.pc = 0 →
      MStep m { m with lock := some i }
  | body (m : Machine) (i : Nat) (t : Thread) :
      m.lock = some i → m.threads[i]? = some t → t.pc < t.op.steps →
      MStep m (microStep m i)

/-- A thread that is outside its critical section: not started, or finished. -/
def Thread.quiet (t : Thread) : Prop := t.pc = 0 ∨ t.pc = t.op.steps

instance (t : Thread) : Decidable t.quiet := by
  unfold Thread.quiet
  infer_instance

/-- Mutex invariant: with the lock free every thread is outside its critical
section; with the lock held by `i`, thread `i` exists and is mid-operation and
every other thread is outside its critical section. -/
def MachInv (m : Machine) : Prop :=
  match m.lock with
  | none => ∀ (j : Nat) (t : Thread), m.threads[j]? = some t → t.quiet
  | some i =>
      (∃ t, m.threads[i]? = some t ∧ t.pc < t.op.steps) ∧
      ∀ j, j ≠ i → ∀ t, m.threads[j]? = some t → t.quiet

/-- Run thread `i`'s whole operation from a quiescent state: acquire, then
its micro-steps (a second `microStep` on a finished thread is the identity). -/
def runOp (m : Machine) (i : Nat) : Machine :=
  match m.threads[i]? with
  | none => m
  | some t =>
    let m1 : Machine := { m with lock := some i }
    match t.op with
    | .save _ _ => microStep (microStep m1 i) i
    | .del _ => microStep m1 i
    | .get _ => microStep (microStep m1 i) i

/-! ## Concrete fixtures (used by witnesses and counterexamples) -/

/-- A config oracle whose `GetBool` always returns the supplied default. -/
def cfgDefaults : AppConfig := ⟨fun _ d => d⟩

/-- Environment in which every application is alive and every call succeeds. -/
def envAliveOk : LoopEnv where
  life := fun _ => .ok .alive
  unexposeService := fun _ => none
  deleteService := fun _ => none
  applicationConfig := fun _ => .ok cfgDefaults
  newWorkerErr := fun _ _ => none
  dyingAtHandshake := fun _ => false
  stopResult := fun _ => none
  addResult := fun _ => none

/-- Same as `envAliveOk` except that attaching the new worker to the catacomb
fails (`p.catacomb.Add` at worker.go:205 returns an error). -/
def envAliveAddFails : LoopEnv :=
  { envAliveOk with addResult := fun _ => some (.other "catacomb is dying") }

/-- Environment in which every life query reports not-found, broker calls
succeed, and stopping a worker fails with an error (which gets logged). -/
def envNotFound : LoopEnv :=
  { envAliveOk with
      life := fun a => .error (.notFound (a ++ " not found"))
      stopResult := fun _ => some (.other "stop failed") }

/-- Environment in which every life query reports Dead. -/
def envDead : LoopEnv := { envAliveOk with life := fun _ => .ok .dead }

/-- Environment in which fetching the application config fails. -/
def envCfgFails : LoopEnv :=
  { envAliveOk with applicationConfig := fun _ => .error (.other "config unavailable") }

/-- Environment in which constructing the application worker fails. -/
def envNewWorkerFails : LoopEnv :=
  { envAliveOk with newWorkerErr := fun _ _ => some (.other "construction failed") }

/-- A registry holding one worker, for application "app1". -/
def regApp1 : Registry := some [("app1", ⟨"app1", false⟩)]

/-- A fully populated configuration. -/
def cfgFull : Config :=
  ⟨some (), some (), some (), some (), some (), some (), some (), some ()⟩

/-- A configuration whose LifeGetter is nil. -/
def cfgNoLife : Config := { cfgFull with LifeGetter := none }

/-- Two registry callers, neither started: thread 0 looks up "app1", thread 1
saves a worker for "app2". -/
def mwMachine : Machine where
  lock := none
  reg := regApp1
  threads := [⟨.get "app1", 0, none⟩, ⟨.save "app2" ⟨"app2", true⟩, 0, none⟩]

/-! ## Helper lemmas about the registry -/

theorem assocLookup_nil (k : String) : assocLookup [] k = none := rfl

theorem assocLookup_filter_ne (m : List (String × AppWorker)) (k a : String) (h : a ≠ k) :
    assocLookup (m.filter (fun p => ¬ p.1 = k)) a = assocLookup m a := by
  induction m with
  | nil => rfl
  | cons x m ih =>
    by_cases hx : x.1 = k
    · have hka : ¬ x.1 = a := fun hc => h (hc.symm.trans hx)
      simp only [List.filter_cons]
      rw [if_neg (by simp [hx]), ih]
      simp [assocLookup, List.find?_cons, hka]
    · simp only [List.filter_cons]
      rw [if_pos (by simp [hx])]
      by_cases hxa : x.1 = a
      · simp [assocLookup, List.find?_cons, hxa]
      · simp only [assocLookup, List.find?_cons, decide_eq_false hxa]
        simpa [assocLookup] using ih

theorem assocLookup_insert_self (m : List (String × AppWorker)) (k : String) (w : AppWorker) :
    assocLookup (assocInsert m k w) k = some w := by
  unfold assocInsert assocLookup
  rw [List.find?_cons_of_pos _ (by simp)]
  rfl

theorem assocLookup_insert_ne (m : List (String × AppWorker)) (k a : String) (w : AppWorker)
    (h : a ≠ k) : assocLookup (assocInsert m k w) a = assocLookup m a := by
  unfold assocInsert
  show assocLookup ((k, w) :: m.filter (fun p => ¬ p.1 = k)) a = _
  unfold assocLookup
  rw [List.find?_cons_of_neg _ (by simpa using fun hc => h hc.symm)]
  exact assocLookup_filter_ne m k a h

theorem assocLookup_erase_self (m : List (String × AppWorker)) (k : String) :
    assocLookup (assocErase m k) k = none := by
  have hfind : ∀ x ∈ m.filter (fun p => ¬ p.1 = k),
      ¬ ((fun (p : String × AppWorker) => decide (p.1 = k)) x = true) := by
    intro x hx
    have := List.of_mem_filter hx
    simp only [decide_not, Bool.not_eq_true', decide_eq_false_iff_not] at this
    simpa using this
  unfold assocErase assocLookup
  rw [List.find?_eq_none.2 hfind]
  rfl

theorem assocLookup_erase_ne (m : List (String × AppWorker)) (k a : String) (h : a ≠ k) :
    assocLookup (assocErase m k) a = assocLookup m a :=
  assocLookup_filter_ne m k a h

theorem getApplicationWorker_eq_lookup (r : Registry) (k : String) :
    getApplicationWorker r k = assocLookup (r.getD []) k := by
  cases r with
  | none => rfl
  | some m =>
    cases m with
    | nil => rfl
    | cons x m => simp [getApplicationWorker, registryLen]

theorem get_save_self (r : Registry) (k : String) (w : AppWorker) :
    getApplicationWorker (saveApplicationWorker r k w) k = some w := by
  rw [getApplicationWorker_eq_lookup]
  exact assocLookup_insert_self _ k w

theorem get_save_ne (r : Registry) (k a : String) (w : AppWorker) (h : a ≠ k) :
    getApplicationWorker (saveApplicationWorker r k w) a = getApplicationWorker r a := by
  rw [getApplicationWorker_eq_lookup, getApplicationWorker_eq_lookup]
  exact assocLookup_insert_ne _ k a w h

theorem get_delete_self (r : Registry) (k : String) :
    getApplicationWorker (deleteApplicationWorker r k) k = none := by
  cases r with
  | none => rfl
  | some m =>
    rw [getApplicationWorker_eq_lookup]
    exact assocLookup_erase_self m k

theorem get_delete_ne (r : Registry) (k a : String) (h : a ≠ k) :
    getApplicationWorker (deleteApplicationWorker r k) a = getApplicationWorker r a := by
  cases r with
  | none => rfl
  | some m =>
    rw [getApplicationWorker_eq_lookup, getApplicationWorker_eq_lookup]
    exact assocLookup_erase_ne m k a h

/-! ## Claim theorems -/

/-- C1: for every application name whose Life query returns a NotFound error,
the loop invokes `ContainerBroker.UnexposeService` before
`ContainerBroker.DeleteService`, each exactly once per NotFound observation
and regardless of whether a worker is registered for the name; a non-nil
error from either call makes the loop return that error (traced)
immediately. -/
theorem notFound_unexpose_then_delete
    (env : LoopEnv) (r : Registry) (a : String) (e : GoError)
    (hl : env.life a = .error e) (hnf : e.isNotFound = true) :
    (∀ err, env.unexposeService a = some err →
      processApp env r a = ⟨[.unexposeService a], r, some (errorsTrace err)⟩) ∧
    (env.unexposeService a = none → ∀ err, env.deleteService a = some err →
      processApp env r a =
        ⟨[.unexposeService a, .deleteService a], r, some (errorsTrace err)⟩) ∧
    (env.unexposeService a = none → env.deleteService a = none →
      (processApp env r a).err = none ∧
      ∃ rest, (processApp env r a).events =
          .unexposeService a :: .deleteService a :: rest ∧
        ∀ x ∈ rest, x ≠ Event.unexposeService a ∧ x ≠ Event.deleteService a) := by
  refine ⟨?_, ?_, ?_⟩
  · intro err herr
    simp [processApp, hl, hnf, herr]
  · intro hu err herr
    simp [processApp, hl, hnf, hu, herr]
  · intro hu hd
    cases hw : getApplicationWorker r a with
    | none =>
      exact ⟨by simp [processApp, hl, hnf, hu, hd, hw], [],
        by simp [processApp, hl, hnf, hu, hd, hw], by simp⟩
    | some w =>
      refine ⟨by simp [processApp, hl, hnf, hu, hd, hw], ?_⟩
      cases hdy : env.dyingAtHandshake w with
      | false =>
        cases hst : env.stopResult w with
        | none =>
          exact ⟨[.sendRemoved a, .stopWorker a],
            by simp [processApp, hl, hnf, hu, hd, hw, hdy, hst], by simp⟩
        | some se =>
          exact ⟨[.sendRemoved a, .stopWorker a, .logStopError a se],
            by simp [processApp, hl, hnf, hu, hd, hw, hdy, hst], by simp⟩
      | true =>
        cases hst : env.stopResult w with
        | none =>
          exact ⟨[.closeRemoved a, .stopWorker a],
            by simp [processApp, hl, hnf, hu, hd, hw, hdy, hst], by simp⟩
        | some se =>
          exact ⟨[.closeRemoved a, .stopWorker a, .logStopError a se],
            by simp [processApp, hl, hnf, hu, hd, hw, hdy, hst], by simp⟩

/-- Witness for C1 at a concrete input: a registered application whose record
is gone upstream. -/
theorem notFound_unexpose_then_delete_witness :
    envNotFound.life "app1" = .error (.notFound "app1 not found") ∧
    (GoError.notFound "app1 not found").isNotFound = true ∧
    envNotFound.unexposeService "app1" = none ∧
    envNotFound.deleteService "app1" = none ∧
    ((processApp envNotFound regApp1 "app1").err = none ∧
      ∃ rest, (processApp envNotFound regApp1 "app1").events =
          .unexposeService "app1" :: .deleteService "app1" :: rest ∧
        ∀ x ∈ rest, x ≠ Event.unexposeService "app1" ∧ x ≠ Event.deleteService "app1") :=
  ⟨rfl, rfl, rfl, rfl,
    (notFound_unexpose_then_delete envNotFound regApp1 "app1"
      (.notFound "app1 not found") rfl rfl).2.2 rfl rfl⟩

/-- C2: for a NotFound name with a registered worker, after the broker
cleanup the loop performs the removal handshake — exactly one of a send on
the removal channel or (when the worker's death signal fired first) a close
of it — then stops the worker; a stop error is logged and does not abort the
loop, and the registry entry is deleted regardless of the stop outcome. -/
theorem notFound_removal_handshake
    (env : LoopEnv) (r : Registry) (a : String) (e : GoError) (w : AppWorker)
    (hl : env.life a = .error e) (hnf : e.isNotFound = true)
    (hu : env.unexposeService a = none) (hd : env.deleteService a = none)
    (hw : getApplicationWorker r a = some w) :
    processApp env r a =
      ⟨[.unexposeService a, .deleteService a] ++
         (if env.dyingAtHandshake w then Event.closeRemoved a else Event.sendRemoved a) ::
           (match env.stopResult w with
            | some se => [Event.stopWorker a, Event.logStopError a se]
            | none => [Event.stopWorker a]),
       deleteApplicationWorker r a, none⟩ ∧
    (processApp env r a).events.count (Event.sendRemoved a) +
        (processApp env r a).events.count (Event.closeRemoved a) = 1 ∧
    (∃ i j : Nat, i < j ∧
       (processApp env r a).events[i]? =
         some (if env.dyingAtHandshake w then Event.closeRemoved a else Event.sendRemoved a) ∧
       (processApp env r a).events[j]? = some (Event.stopWorker a)) ∧
    (∀ se, env.stopResult w = some se →
       Event.logStopError a se ∈ (processApp env r a).events) ∧
    (processApp env r a).err = none ∧
    getApplicationWorker (processApp env r a).reg a = none := by
  have hcore : processApp env r a =
      ⟨[.unexposeService a, .deleteService a] ++
         (if env.dyingAtHandshake w then Event.closeRemoved a else Event.sendRemoved a) ::
           (match env.stopResult w with
            | some se => [Event.stopWorker a, Event.logStopError a se]
            | none => [Event.stopWorker a]),
       deleteApplicationWorker r a, none⟩ := by
    simp [processApp, hl, hnf, hu, hd, hw]
  refine ⟨hcore, ?_, ?_, ?_, ?_, ?_⟩
  · rw [hcore]
    cases hdy : env.dyingAtHandshake w <;> cases hst : env.stopResult w <;> simp
  · rw [hcore]
    refine ⟨2, 3, by omega, ?_, ?_⟩ <;>
      cases hdy : env.dyingAtHandshake w <;> cases hst : env.stopResult w <;> simp
  · intro se hst
    rw [hcore, hst]
    simp
  · rw [hcore]
  · rw [hcore]
    exact get_delete_self r a

/-- Witness for C2 at a concrete input: "app1" is registered, the worker is
not yet dying, and stopping it fails (the failure is logged, not fatal). -/
theorem notFound_removal_handshake_witness :
    envNotFound.life "app1" = .error (.notFound "app1 not found") ∧
    (GoError.notFound "app1 not found").isNotFound = true ∧
    envNotFound.unexposeService "app1" = none ∧
    envNotFound.deleteService "app1" = none ∧
    getApplicationWorker regApp1 "app1" = some ⟨"app1", false⟩ ∧
    ((processApp envNotFound regApp1 "app1").err = none ∧
      getApplicationWorker (processApp envNotFound regApp1 "app1").reg "app1" = none) := by
  have h := notFound_removal_handshake envNotFound regApp1 "app1"
    (.notFound "app1 not found") ⟨"app1", false⟩ rfl rfl rfl rfl (by decide)
  exact ⟨rfl, rfl, rfl, rfl, by decide, h.2.2.2.2.1, h.2.2.2.2.2⟩

/-- Processing one name mutates the registry, if at all, only at that name:
the result registry is the input registry, a deletion of the name, or a save
under the name. -/
theorem processApp_reg_cases (env : LoopEnv) (r : Registry) (b : String) :
    (processApp env r b).reg = r ∨
    (processApp env r b).reg = deleteApplicationWorker r b ∨
    ∃ w, (processApp env r b).reg = saveApplicationWorker r b w := by
  unfold processApp
  rcases env.life b with e | l <;> dsimp only
  · split
    · split
      · exact Or.inl rfl
      · split
        · exact Or.inl rfl
        · split
          · exact Or.inr (Or.inl rfl)
          · exact Or.inl rfl
    · exact Or.inl rfl
  · split
    · exact Or.inl rfl
    · split
      · exact Or.inl rfl
      · split
        · exact Or.inl rfl
        · exact Or.inr (Or.inr ⟨_, rfl⟩)

/-- Processing one name never changes what the registry holds for a different
name. -/
theorem processApp_get_ne (env : LoopEnv) (r : Registry) (b a : String) (hne : a ≠ b) :
    getApplicationWorker (processApp env r b).reg a = getApplicationWorker r a := by
  rcases processApp_reg_cases env r b with h | h | ⟨w, h⟩ <;> rw [h]
  · exact get_delete_ne r b a hne
  · exact get_save_ne r b a w hne

/-- A name whose life is Dead and which has no registered worker stays out of
the registry across a whole batch. -/
theorem processBatch_dead_preserved (env : LoopEnv) (a : String)
    (hd : env.life a = .ok .dead) :
    ∀ (apps : List String) (r : Registry), getApplicationWorker r a = none →
      getApplicationWorker (processBatch env r apps).reg a = none := by
  intro apps
  induction apps with
  | nil => intro r h; simpa [processBatch] using h
  | cons b rest ih =>
    intro r h
    by_cases hab : a = b
    · subst hab
      have hskip : processApp env r a = ⟨[], r, none⟩ := by simp [processApp, hd]
      simp only [processBatch, hskip]
      exact ih r h
    · have hreg : getApplicationWorker (processApp env r b).reg a = none := by
        rw [processApp_get_ne env r b a hab]; exact h
      unfold processBatch
      cases herr : (processApp env r b).err with
      | some e => simp only [herr]; exact hreg
      | none => simp only [herr]; exact ih _ hreg

/-- C3: for a name whose Life query succeeds, a registered worker or (while
unregistered) a Dead life makes the loop do nothing: no config fetch, no
construction, registry unchanged.  An unregistered Alive name gets exactly
one worker constructed and registered; a repeated batch entry for a
still-registered name causes no second construction; and no batch adds a
registry entry for a name whose observed life is Dead. -/
theorem life_ok_skip_and_single_construction
    (env : LoopEnv) (r : Registry) (a : String) :
    (∀ l, env.life a = .ok l → (getApplicationWorker r a).isSome →
       processApp env r a = ⟨[], r, none⟩) ∧
    (env.life a = .ok .dead → processApp env r a = ⟨[], r, none⟩) ∧
    (∀ cfg, env.life a = .ok .alive → getApplicationWorker r a = none →
       env.applicationConfig a = .ok cfg →
       env.newWorkerErr a (cfg.GetBool jujuManagedUnitsKey false) = none →
       ((processApp env r a).events.count (Event.newWorker a) = 1 ∧
        getApplicationWorker (processApp env r a).reg a =
          some ⟨a, cfg.GetBool jujuManagedUnitsKey false⟩ ∧
        (processBatch env r [a, a]).events.count (Event.newWorker a) = 1)) ∧
    (∀ apps, env.life a = .ok .dead → getApplicationWorker r a = none →
       getApplicationWorker (processBatch env r apps).reg a = none) := by
  refine ⟨?_, ?_, ?_, ?_⟩
  · intro l hl hreg
    simp [processApp, hl, hreg]
  · intro hl
    simp [processApp, hl]
  · intro cfg hl hreg hcfg hnew
    have hfirst : processApp env r a =
        ⟨[.applicationConfig a, .newWorker a, .saveWorker a, .addWorker a],
         saveApplicationWorker r a ⟨a, cfg.GetBool jujuManagedUnitsKey false⟩, none⟩ := by
      simp [processApp, hl, hreg, hcfg, hnew]
    have hsecond : processApp env
        (saveApplicationWorker r a ⟨a, cfg.GetBool jujuManagedUnitsKey false⟩) a =
        ⟨[], saveApplicationWorker r a ⟨a, cfg.GetBool jujuManagedUnitsKey false⟩, none⟩ := by
      simp [processApp, hl, get_save_self]
    refine ⟨by rw [hfirst]; simp, ?_, ?_⟩
    · rw [hfirst]
      exact get_save_self r a _
    · simp only [processBatch, hfirst, hsecond]
      simp
  · intro apps hl hreg
    exact processBatch_dead_preserved env a hl apps r hreg

/-- Witness for C3 at a concrete input: an unregistered alive application in
an environment where construction succeeds. -/
theorem life_ok_skip_and_single_construction_witness :
    envAliveOk.life "app1" = .ok .alive ∧
    getApplicationWorker (none : Registry) "app1" = none ∧
    envAliveOk.applicationConfig "app1" = .ok cfgDefaults ∧
    envAliveOk.newWorkerErr "app1" (cfgDefaults.GetBool jujuManagedUnitsKey false) = none ∧
    ((processApp envAliveOk none "app1").events.count (Event.newWorker "app1") = 1 ∧
     getApplicationWorker (processApp envAliveOk none "app1").reg "app1" =
       some ⟨"app1", cfgDefaults.GetBool jujuManagedUnitsKey false⟩ ∧
     (processBatch envAliveOk none ["app1", "app1"]).events.count (Event.newWorker "app1") = 1) :=
  ⟨rfl, rfl, rfl, rfl,
    (life_ok_skip_and_single_construction envAliveOk none "app1").2.2.1 cfgDefaults
      rfl rfl rfl rfl⟩

/-- C4: `NewWorker(config)` fails fast when any of the eight collaborator
capability fields is nil, returning a nil worker and a NotValid error naming
the (first) missing field, with the loop task never started; when all fields
are non-nil, validation returns nil and the loop task is started. -/
theorem newWorker_validates_capabilities (c : Config) :
    (c.Validate = none ↔
      (c.ApplicationGetter ≠ none ∧ c.ApplicationUpdater ≠ none ∧
       c.ServiceBroker ≠ none ∧ c.ContainerBroker ≠ none ∧
       c.PodSpecGetter ≠ none ∧ c.LifeGetter ≠ none ∧
       c.UnitGetter ≠ none ∧ c.UnitUpdater ≠ none)) ∧
    (∀ e, c.Validate = some e →
      NewWorker c = ⟨none, some e, false⟩ ∧
      ((e = .notValid "missing ApplicationGetter" ∧ c.ApplicationGetter = none) ∨
       (e = .notValid "missing ApplicationUpdater" ∧ c.ApplicationUpdater = none) ∨
       (e = .notValid "missing ServiceBroker" ∧ c.ServiceBroker = none) ∨
       (e = .notValid "missing ContainerBroker" ∧ c.ContainerBroker = none) ∨
       (e = .notValid "missing PodSpecGetter" ∧ c.PodSpecGetter = none) ∨
       (e = .notValid "missing LifeGetter" ∧ c.LifeGetter = none) ∨
       (e = .notValid "missing UnitGetter" ∧ c.UnitGetter = none) ∨
       (e = .notValid "missing UnitUpdater" ∧ c.UnitUpdater = none))) ∧
    (c.Validate = none → NewWorker c = ⟨some ⟨c⟩, none, true⟩) := by
  obtain ⟨ag, au, sb, cb, pg, lg, ug, uu⟩ := c
  cases ag <;> cases au <;> cases sb <;> cases cb <;>
    cases pg <;> cases lg <;> cases ug <;> cases uu <;>
    simp [Config.Validate, NewWorker, errorsTrace]

/-- Witness for C4 at concrete inputs: a config missing only its LifeGetter
fails fast naming it; the full config validates and starts the loop. -/
theorem newWorker_validates_capabilities_witness :
    cfgNoLife.Validate = some (.notValid "missing LifeGetter") ∧
    (NewWorker cfgNoLife = ⟨none, some (.notValid "missing LifeGetter"), false⟩ ∧
      ((GoError.notValid "missing LifeGetter" = .notValid "missing ApplicationGetter" ∧
          cfgNoLife.ApplicationGetter = none) ∨
       (GoError.notValid "missing LifeGetter" = .notValid "missing ApplicationUpdater" ∧
          cfgNoLife.ApplicationUpdater = none) ∨
       (GoError.notValid "missing LifeGetter" = .notValid "missing ServiceBroker" ∧
          cfgNoLife.ServiceBroker = none) ∨
       (GoError.notValid "missing LifeGetter" = .notValid "missing ContainerBroker" ∧
          cfgNoLife.ContainerBroker = none) ∨
       (GoError.notValid "missing LifeGetter" = .notValid "missing PodSpecGetter" ∧
          cfgNoLife.PodSpecGetter = none) ∨
       (GoError.notValid "missing LifeGetter" = .notValid "missing LifeGetter" ∧
          cfgNoLife.LifeGetter = none) ∨
       (GoError.notValid "missing LifeGetter" = .notValid "missing UnitGetter" ∧
          cfgNoLife.UnitGetter = none) ∨
       (GoError.notValid "missing LifeGetter" = .notValid "missing UnitUpdater" ∧
          cfgNoLife.UnitUpdater = none))) ∧
    cfgFull.Validate = none ∧
    NewWorker cfgFull = ⟨some ⟨cfgFull⟩, none, true⟩ :=
  ⟨by decide,
    (newWorker_validates_capabilities cfgNoLife).2.1 _ (by decide),
    by decide,
    (newWorker_validates_capabilities cfgFull).2.2 (by decide)⟩

/-- C5: a closed watch channel makes the loop return the error
"watcher closed channel", and `Wait()` reports that same error. -/
theorem closed_watch_channel_fatal (env : LoopEnv) (r : Registry) (ms : List LoopMsg) :
    loopRun env r (LoopMsg.closed :: ms) =
      ⟨[], r, some (GoError.other "watcher closed channel")⟩ ∧
    provisionerWait (loopRun env r (LoopMsg.closed :: ms)) =
      some (GoError.other "watcher closed channel") :=
  ⟨rfl, rfl⟩

/-- C6 counterexample: the claim that "a failure to attach is not silently
ignored" is false at this input.  worker.go:205 discards the error returned
by `p.catacomb.Add(w)`: in an environment where the attach call fails, the
loop's outcome is identical to the success environment — no error is
returned, nothing is logged, the trace and registry are the same. -/
theorem attach_error_ignored_cex :
    processApp envAliveAddFails none "app1" = processApp envAliveOk none "app1" ∧
    envAliveAddFails.addResult ⟨"app1", false⟩ = some (.other "catacomb is dying") ∧
    (processApp envAliveAddFails none "app1").err = none ∧
    (processApp envAliveAddFails none "app1").events =
      [.applicationConfig "app1", .newWorker "app1", .saveWorker "app1", .addWorker "app1"] :=
  ⟨rfl, rfl, rfl, rfl⟩

/-- C6 (amended): every newly constructed worker is registered in the
registry under its application name and the attach call (`p.catacomb.Add`) is
then performed for it, so the worker's failure becomes fatal to the root;
however the attach call's own error is discarded — an attach failure does not
change the loop's behaviour. -/
theorem constructed_worker_registered_and_attached
    (env : LoopEnv) (r : Registry) (a : String) (l : Life) (cfg : AppConfig)
    (hl : env.life a = .ok l) (hreg : getApplicationWorker r a = none)
    (hnd : l ≠ .dead)
    (hcfg : env.applicationConfig a = .ok cfg)
    (hnew : env.newWorkerErr a (cfg.GetBool jujuManagedUnitsKey false) = none) :
    processApp env r a =
      ⟨[.applicationConfig a, .newWorker a, .saveWorker a, .addWorker a],
       saveApplicationWorker r a ⟨a, cfg.GetBool jujuManagedUnitsKey false⟩, none⟩ ∧
    getApplicationWorker (processApp env r a).reg a =
      some ⟨a, cfg.GetBool jujuManagedUnitsKey false⟩ ∧
    (∀ f, processApp { env with addResult := f } r a = processApp env r a) := by
  have hcore : processApp env r a =
      ⟨[.applicationConfig a, .newWorker a, .saveWorker a, .addWorker a],
       saveApplicationWorker r a ⟨a, cfg.GetBool jujuManagedUnitsKey false⟩, none⟩ := by
    simp [processApp, hl, hreg, hcfg, hnew, hnd]
  refine ⟨hcore, ?_, ?_⟩
  · rw [hcore]
    exact get_save_self r a _
  · intro f
    simp [processApp]

/-- Witness for the amended C6 at a concrete input. -/
theorem constructed_worker_registered_and_attached_witness :
    envAliveOk.life "app2" = .ok .alive ∧
    getApplicationWorker regApp1 "app2" = none ∧
    Life.alive ≠ Life.dead ∧
    envAliveOk.applicationConfig "app2" = .ok cfgDefaults ∧
    envAliveOk.newWorkerErr "app2" (cfgDefaults.GetBool jujuManagedUnitsKey false) = none ∧
    getApplicationWorker (processApp envAliveOk regApp1 "app2").reg "app2" =
      some ⟨"app2", cfgDefaults.GetBool jujuManagedUnitsKey false⟩ :=
  ⟨rfl, by decide, by decide, rfl, rfl,
    (constructed_worker_registered_and_attached envAliveOk regApp1 "app2" .alive
      cfgDefaults rfl (by decide) (by decide) rfl rfl).2.1⟩

/-- C7: a change batch is processed to completion, name by name in the order
received, before the next batch is read: processing `a :: rest` runs `a`
first and, unless `a`'s processing returned an error, continues with `rest`
on the updated registry; the loop reads a batch, emits all of its events, and
only then reads from the watch channel again. -/
theorem batch_sequential_before_next_read
    (env : LoopEnv) (r : Registry) (a : String) (rest : List String)
    (apps : List String) (ms : List LoopMsg) :
    ((processApp env r a).err = none →
       processBatch env r (a :: rest) =
         ⟨(processApp env r a).events ++
            (processBatch env (processApp env r a).reg rest).events,
          (processBatch env (processApp env r a).reg rest).reg,
          (processBatch env (processApp env r a).reg rest).err⟩) ∧
    (∀ e, (processApp env r a).err = some e →
       processBatch env r (a :: rest) = processApp env r a) ∧
    ((processBatch env r apps).err = none →
       loopRun env r (.batch apps :: ms) =
         ⟨(Event.readBatch apps :: (processBatch env r apps).events) ++
            (loopRun env (processBatch env r apps).reg ms).events,
          (loopRun env (processBatch env r apps).reg ms).reg,
          (loopRun env (processBatch env r apps).reg ms).err⟩) ∧
    (∀ e, (processBatch env r apps).err = some e →
       loopRun env r (.batch apps :: ms) =
         ⟨Event.readBatch apps :: (processBatch env r apps).events,
          (processBatch env r apps).reg, some e⟩) := by
  refine ⟨?_, ?_, ?_, ?_⟩
  · intro h
    simp only [processBatch, h]
  · intro e h
    simp only [processBatch, h]
  · intro h
    simp only [loopRun, h]
  · intro e h
    simp only [loopRun, h]

/-- Witness for C7 at a concrete input: a two-name batch followed by another
read in an all-alive environment. -/
theorem batch_sequential_before_next_read_witness :
    (processApp envAliveOk none "app1").err = none ∧
    processBatch envAliveOk none ["app1", "app2"] =
      ⟨(processApp envAliveOk none "app1").events ++
         (processBatch envAliveOk (processApp envAliveOk none "app1").reg ["app2"]).events,
       (processBatch envAliveOk (processApp envAliveOk none "app1").reg ["app2"]).reg,
       (processBatch envAliveOk (processApp envAliveOk none "app1").reg ["app2"]).err⟩ ∧
    (processBatch envAliveOk none ["app1"]).err = none ∧
    loopRun envAliveOk none [.batch ["app1"], .batch ["app2"]] =
      ⟨(Event.readBatch ["app1"] :: (processBatch envAliveOk none ["app1"]).events) ++
         (loopRun envAliveOk (processBatch envAliveOk none ["app1"]).reg
           [.batch ["app2"]]).events,
       (loopRun envAliveOk (processBatch envAliveOk none ["app1"]).reg
         [.batch ["app2"]]).reg,
       (loopRun envAliveOk (processBatch envAliveOk none ["app1"]).reg
         [.batch ["app2"]]).err⟩ :=
  ⟨rfl,
    (batch_sequential_before_next_read envAliveOk none "app1" ["app2"] ["app1"]
      [.batch ["app2"]]).1 rfl,
    rfl,
    (batch_sequential_before_next_read envAliveOk none "app1" ["app2"] ["app1"]
      [.batch ["app2"]]).2.2.1 rfl⟩

/-- C10: worker creation is atomic with respect to the registry: if fetching
the application's config or constructing the worker fails, the loop returns
that error (traced) and the registry is unchanged — the name is registered
only after `newApplicationWorker` succeeds. -/
theorem worker_creation_atomic_on_error
    (env : LoopEnv) (r : Registry) (a : String) (l : Life)
    (hl : env.life a = .ok l)
    (hreg : getApplicationWorker r a = none) (hnd : l ≠ .dead) :
    (∀ e, env.applicationConfig a = .error e →
       processApp env r a = ⟨[.applicationConfig a], r, some (errorsTrace e)⟩) ∧
    (∀ cfg e, env.applicationConfig a = .ok cfg →
       env.newWorkerErr a (cfg.GetBool jujuManagedUnitsKey false) = some e →
       processApp env r a =
         ⟨[.applicationConfig a, .newWorker a], r, some (errorsTrace e)⟩) := by
  constructor
  · intro e hcfg
    simp [processApp, hl, hreg, hnd, hcfg]
  · intro cfg e hcfg hnew
    simp [processApp, hl, hreg, hnd, hcfg, hnew]

/-- Witness for C10 at concrete inputs: a config fetch failure and a worker
construction failure, each leaving the registry unchanged. -/
theorem worker_creation_atomic_on_error_witness :
    envCfgFails.life "app1" = .ok .alive ∧
    getApplicationWorker (none : Registry) "app1" = none ∧
    Life.alive ≠ Life.dead ∧
    envCfgFails.applicationConfig "app1" = .error (.other "config unavailable") ∧
    processApp envCfgFails none "app1" =
      ⟨[.applicationConfig "app1"], none, some (errorsTrace (.other "config unavailable"))⟩ ∧
    envNewWorkerFails.applicationConfig "app1" = .ok cfgDefaults ∧
    envNewWorkerFails.newWorkerErr "app1" (cfgDefaults.GetBool jujuManagedUnitsKey false) =
      some (.other "construction failed") ∧
    processApp envNewWorkerFails none "app1" =
      ⟨[.applicationConfig "app1", .newWorker "app1"], none,
       some (errorsTrace (.other "construction failed"))⟩ :=
  ⟨rfl, rfl, by decide, rfl,
    (worker_creation_atomic_on_error envCfgFails none "app1" .alive rfl rfl
      (by decide)).1 _ rfl,
    rfl, rfl,
    (worker_creation_atomic_on_error envNewWorkerFails none "app1" .alive rfl rfl
      (by decide)).2 cfgDefaults _ rfl rfl⟩

/-- C9: the three registry helpers are total on the zero-value (nil-map)
registry: lookup on the nil or empty map returns `(nil, false)`, deleting an
absent name leaves the registry unchanged, and save lazily allocates the map
on first use. -/
theorem registry_ops_total_on_nil :
    (∀ k, getApplicationWorker none k = none) ∧
    (∀ k, getApplicationWorker (some []) k = none) ∧
    (∀ (r : Registry) k, getApplicationWorker r k = none →
       deleteApplicationWorker r k = r) ∧
    (∀ k w, saveApplicationWorker none k w = some [(k, w)]) ∧
    (∀ (r : Registry) k w, (saveApplicationWorker r k w).isSome = true) := by
  refine ⟨fun _ => rfl, fun _ => rfl, ?_, ?_, fun _ _ _ => rfl⟩
  · intro r k h
    cases r with
    | none => rfl
    | some m =>
      cases m with
      | nil => rfl
      | cons x m =>
        rw [getApplicationWorker_eq_lookup] at h
        unfold assocLookup at h
        rw [Option.map_eq_none'] at h
        rw [List.find?_eq_none] at h
        simp only [deleteApplicationWorker, assocErase]
        congr 1
        rw [List.filter_eq_self]
        intro p hp
        have := h p hp
        simpa using this
  · intro k w
    unfold saveApplicationWorker assocInsert
    rfl

/-- Witness for C9 at concrete inputs. -/
theorem registry_ops_total_on_nil_witness :
    getApplicationWorker none "app1" = none ∧
    getApplicationWorker regApp1 "app2" = none ∧
    deleteApplicationWorker regApp1 "app2" = regApp1 ∧
    saveApplicationWorker none "app1" ⟨"app1", false⟩ = some [("app1", ⟨"app1", false⟩)] ∧
    (saveApplicationWorker none "app1" ⟨"app1", false⟩).isSome = true :=
  ⟨registry_ops_total_on_nil.1 "app1", by decide,
    registry_ops_total_on_nil.2.2.1 regApp1 "app2" (by decide),
    registry_ops_total_on_nil.2.2.2.1 "app1" ⟨"app1", false⟩,
    registry_ops_total_on_nil.2.2.2.2 none "app1" ⟨"app1", false⟩⟩

/-! ## Helper lemmas for the mutex machine -/

/-- A micro-step of thread `i` never touches another thread's state. -/
theorem microStep_threads_ne (m : Machine) (i j : Nat) (hne : j ≠ i) :
    (microStep m i).threads[j]? = m.threads[j]? := by
  have hset : ∀ t' : Thread, (m.threads.set i t')[j]? = m.threads[j]? := fun t' =>
    List.getElem?_set_ne (Ne.symm hne)
  unfold microStep Machine.setThread
  cases h : m.threads[i]? with
  | none => rfl
  | some t =>
    obtain ⟨op, pc, ret⟩ := t
    rcases op with ⟨k, w⟩ | k | k <;> rcases pc with _ | _ | pc <;> dsimp only <;>
      first
        | rfl
        | exact hset _
        | (split <;> first | rfl | exact hset _)

/-- While the mutex is held by thread `i`, the only possible step is `i`'s
next micro-step: no other thread can run at all. -/
theorem locked_step_forced (m m' : Machine) (i : Nat) (hlock : m.lock = some i)
    (hs : MStep m m') : m' = microStep m i := by
  cases hs with
  | acquire j t hl hget hpc => rw [hlock] at hl; cases hl
  | body j t hl hget hpc =>
    rw [hlock] at hl
    injection hl with h
    rw [h]

/-- The steps count of every operation is positive. -/
theorem RegOp.steps_pos (op : RegOp) : 0 < op.steps := by
  cases op <;> simp [RegOp.steps]

/-- The mutex invariant is preserved by every step. -/
theorem machInv_preserved (m m' : Machine) (hinv : MachInv m) (hs : MStep m m') :
    MachInv m' := by
  cases hs with
  | acquire i t hlock hget hpc =>
    simp only [MachInv, hlock] at hinv
    simp only [MachInv]
    refine ⟨⟨t, hget, ?_⟩, ?_⟩
    · rw [hpc]; exact t.op.steps_pos
    · intro j hj t' hget'
      exact hinv j t' hget'
  | body i t hlock hget hpc =>
    simp only [MachInv, hlock] at hinv
    obtain ⟨-, hothers⟩ := hinv
    have hlen : i < m.threads.length := (List.getElem?_eq_some.1 hget).1
    have hgetset : ∀ t' : Thread, (m.threads.set i t')[i]? = some t' := by
      intro t'
      rw [List.getElem?_set_self', hget]
      rfl
    have hgetset_ne : ∀ (t' : Thread) (j : Nat), j ≠ i →
        (m.threads.set i t')[j]? = m.threads[j]? := fun t' j hj =>
      List.getElem?_set_ne (Ne.symm hj)
    unfold microStep Machine.setThread
    rw [hget]
    obtain ⟨op, pc, ret⟩ := t
    rcases op with ⟨k, w⟩ | k | k <;> rcases pc with _ | _ | pc <;> dsimp only
    · -- save, pc 0: lock kept, thread i advances to pc 1
      simp only [MachInv, hlock]
      refine ⟨⟨_, hgetset _, by simp [RegOp.steps]⟩, ?_⟩
      intro j hj t' hget'
      rw [hgetset_ne _ j hj] at hget'
      exact hothers j hj t' hget'
    · -- save, pc 1: released; thread i finished
      simp only [MachInv]
      intro j t' hget'
      by_cases hj : j = i
      · subst hj
        rw [hgetset _] at hget'
        cases hget'
        exact Or.inr rfl
      · rw [hgetset_ne _ j hj] at hget'
        exact hothers j hj t' hget'
    · -- save, pc ≥ 2: impossible, pc < steps = 2
      simp only [RegOp.steps] at hpc
      omega
    · -- del, pc 0: released; thread i finished
      simp only [MachInv]
      intro j t' hget'
      by_cases hj : j = i
      · subst hj
        rw [hgetset _] at hget'
        cases hget'
        exact Or.inr rfl
      · rw [hgetset_ne _ j hj] at hget'
        exact hothers j hj t' hget'
    · -- del, pc 1: impossible, pc < steps = 1
      simp [RegOp.steps] at hpc
    · -- del, pc ≥ 2: impossible
      simp [RegOp.steps] at hpc
    · -- get, pc 0: two branches of the early-return test
      split
      · simp only [MachInv]
        intro j t' hget'
        by_cases hj : j = i
        · subst hj
          rw [hgetset _] at hget'
          cases hget'
          exact Or.inr rfl
        · rw [hgetset_ne _ j hj] at hget'
          exact hothers j hj t' hget'
      · simp only [MachInv, hlock]
        refine ⟨⟨_, hgetset _, by simp [RegOp.steps]⟩, ?_⟩
        intro j hj t' hget'
        rw [hgetset_ne _ j hj] at hget'
        exact hothers j hj t' hget'
    · -- get, pc 1: released; thread i finished
      simp only [MachInv]
      intro j t' hget'
      by_cases hj : j = i
      · subst hj
        rw [hgetset _] at hget'
        cases hget'
        exact Or.inr rfl
      · rw [hgetset_ne _ j hj] at hget'
        exact hothers j hj t' hget'
    · -- get, pc ≥ 2: impossible
      simp only [RegOp.steps] at hpc
      omega

/-- Running a `save` operation from a quiescent state: the critical section
executes without interleaving and has exactly the atomic effect of
`saveApplicationWorker` on the pre-state registry. -/
theorem runOp_save (m : Machine) (i : Nat) (k : String) (w : AppWorker)
    (ret : Option AppWorker)
    (hlock : m.lock = none)
    (hget : m.threads[i]? = some ⟨.save k w, 0, ret⟩) :
    runOp m i = ⟨none, saveApplicationWorker m.reg k w,
      m.threads.set i ⟨.save k w, 2, ret⟩⟩ ∧
    Relation.ReflTransGen MStep m (runOp m i) := by
  have hset1 : (m.threads.set i ⟨.save k w, 1, ret⟩)[i]? =
      some ⟨.save k w, 1, ret⟩ := by
    rw [List.getElem?_set_self', hget]; rfl
  have h1 : microStep { m with lock := some i } i =
      ⟨some i, some (m.reg.getD []), m.threads.set i ⟨.save k w, 1, ret⟩⟩ := by
    unfold microStep Machine.setThread
    dsimp only
    rw [hget]
    rfl
  have h2 : microStep (⟨some i, some (m.reg.getD []),
        m.threads.set i ⟨.save k w, 1, ret⟩⟩ : Machine) i =
      ⟨none, saveApplicationWorker m.reg k w, m.threads.set i ⟨.save k w, 2, ret⟩⟩ := by
    unfold microStep Machine.setThread
    dsimp only
    rw [hset1]
    dsimp only
    rw [List.set_set]
    rfl
  have hrun : runOp m i = microStep (microStep { m with lock := some i } i) i := by
    unfold runOp
    rw [hget]
  constructor
  · rw [hrun, h1, h2]
  · rw [hrun]
    have s1 : MStep m { m with lock := some i } :=
      MStep.acquire _ i ⟨.save k w, 0, ret⟩ hlock hget rfl
    have s2 : MStep { m with lock := some i } (microStep { m with lock := some i } i) :=
      MStep.body _ i ⟨.save k w, 0, ret⟩ rfl hget (by simp [RegOp.steps])
    have s3 : MStep (microStep { m with lock := some i } i)
        (microStep (microStep { m with lock := some i } i) i) := by
      rw [h1]
      exact MStep.body _ i ⟨.save k w, 1, ret⟩ rfl hset1 (by simp [RegOp.steps])
    exact Relation.ReflTransGen.head s1
      (Relation.ReflTransGen.head s2 (Relation.ReflTransGen.single s3))

/-- Running a `del` operation from a quiescent state: the critical section
executes without interleaving and has exactly the atomic effect of
`deleteApplicationWorker` on the pre-state registry. -/
theorem runOp_del (m : Machine) (i : Nat) (k : String) (ret : Option AppWorker)
    (hlock : m.lock = none)
    (hget : m.threads[i]? = some ⟨.del k, 0, ret⟩) :
    runOp m i = ⟨none, deleteApplicationWorker m.reg k,
      m.threads.set i ⟨.del k, 1, ret⟩⟩ ∧
    Relation.ReflTransGen MStep m (runOp m i) := by
  have h1 : microStep { m with lock := some i } i =
      ⟨none, deleteApplicationWorker m.reg k, m.threads.set i ⟨.del k, 1, ret⟩⟩ := by
    unfold microStep Machine.setThread
    dsimp only
    rw [hget]
    rfl
  have hrun : runOp m i = microStep { m with lock := some i } i := by
    unfold runOp
    rw [hget]
  constructor
  · rw [hrun, h1]
  · rw [hrun]
    have s1 : MStep m { m with lock := some i } :=
      MStep.acquire _ i ⟨.del k, 0, ret⟩ hlock hget rfl
    have s2 : MStep { m with lock := some i } (microStep { m with lock := some i } i) :=
      MStep.body _ i ⟨.del k, 0, ret⟩ rfl hget (by simp [RegOp.steps])
    exact Relation.ReflTransGen.head s1 (Relation.ReflTransGen.single s2)

/-- Running a `get` operation from a quiescent state: the critical section
executes without interleaving, leaves the registry unchanged, and returns
exactly the atomic `getApplicationWorker` of the pre-state registry. -/
theorem runOp_get (m : Machine) (i : Nat) (k : String) (ret : Option AppWorker)
    (hlock : m.lock = none)
    (hget : m.threads[i]? = some ⟨.get k, 0, ret⟩) :
    runOp m i = ⟨none, m.reg,
      m.threads.set i ⟨.get k, 2, getApplicationWorker m.reg k⟩⟩ ∧
    Relation.ReflTransGen MStep m (runOp m i) := by
  have hrun : runOp m i = microStep (microStep { m with lock := some i } i) i := by
    unfold runOp
    rw [hget]
  by_cases hz : registryLen m.reg = 0
  · have hgw : getApplicationWorker m.reg k = none := by
      unfold getApplicationWorker
      rw [if_pos hz]
    have hset2 : (m.threads.set i ⟨.get k, 2, none⟩)[i]? = some ⟨.get k, 2, none⟩ := by
      rw [List.getElem?_set_self', hget]; rfl
    have h1 : microStep { m with lock := some i } i =
        ⟨none, m.reg, m.threads.set i ⟨.get k, 2, none⟩⟩ := by
      unfold microStep Machine.setThread
      dsimp only
      rw [hget]
      dsimp only
      rw [if_pos hz]
    have h2 : microStep (⟨none, m.reg, m.threads.set i ⟨.get k, 2, none⟩⟩ : Machine) i =
        ⟨none, m.reg, m.threads.set i ⟨.get k, 2, none⟩⟩ := by
      unfold microStep Machine.setThread
      dsimp only
      rw [hset2]
      rfl
    constructor
    · rw [hrun, h1, h2, hgw]
    · rw [hrun, h1, h2]
      have s1 : MStep m { m with lock := some i } :=
        MStep.acquire _ i ⟨.get k, 0, ret⟩ hlock hget rfl
      have s2 : MStep { m with lock := some i } (microStep { m with lock := some i } i) :=
        MStep.body _ i ⟨.get k, 0, ret⟩ rfl hget (by simp [RegOp.steps])
      rw [h1] at s2
      exact Relation.ReflTransGen.head s1 (Relation.ReflTransGen.single s2)
  · have hgw : getApplicationWorker m.reg k = assocLookup (m.reg.getD []) k := by
      unfold getApplicationWorker
      rw [if_neg hz]
    have hset1 : (m.threads.set i ⟨.get k, 1, ret⟩)[i]? = some ⟨.get k, 1, ret⟩ := by
      rw [List.getElem?_set_self', hget]; rfl
    have h1 : microStep { m with lock := some i } i =
        ⟨some i, m.reg, m.threads.set i ⟨.get k, 1, ret⟩⟩ := by
      unfold microStep Machine.setThread
      dsimp only
      rw [hget]
      dsimp only
      rw [if_neg hz]
    have h2 : microStep (⟨some i, m.reg, m.threads.set i ⟨.get k, 1, ret⟩⟩ : Machine) i =
        ⟨none, m.reg, m.threads.set i ⟨.get k, 2, assocLookup (m.reg.getD []) k⟩⟩ := by
      unfold microStep Machine.setThread
      dsimp only
      rw [hset1]
      dsimp only
      rw [List.set_set]
    constructor
    · rw [hrun, h1, h2, hgw]
    · rw [hrun]
      have s1 : MStep m { m with lock := some i } :=
        MStep.acquire _ i ⟨.get k, 0, ret⟩ hlock hget rfl
      have s2 : MStep { m with lock := some i } (microStep { m with lock := some i } i) :=
        MStep.body _ i ⟨.get k, 0, ret⟩ rfl hget (by simp [RegOp.steps])
      have s3 : MStep (microStep { m with lock := some i } i)
          (microStep (microStep { m with lock := some i } i) i) := by
        rw [h1]
        exact MStep.body _ i ⟨.get k, 1, ret⟩ rfl hset1 (by simp [RegOp.steps])
      exact Relation.ReflTransGen.head s1
        (Relation.ReflTransGen.head s2 (Relation.ReflTransGen.single s3))

/-- C8: concurrent save, lookup and delete operations on the worker registry
never produce a torn or inconsistent read, because every access runs under
the provisioner's mutex: (i) the mutex invariant is preserved by every step
of the interleaving machine; (ii) while a thread holds the mutex, the only
enabled step is that thread's own next micro-step, so no other caller can
observe or interfere with a mutation in progress; (iii) an operation run to
completion from a quiescent state is a genuine interleaved execution whose
effect is exactly the atomic semantics of the corresponding helper on the
pre-mutation registry — in particular a lookup returns exactly
`getApplicationWorker` of a registry that is the pre- or post-state of the
completed mutations, never a partial one. -/
theorem registry_mutex_no_torn_read :
    (∀ m m', MachInv m → MStep m m' → MachInv m') ∧
    (∀ (m m' : Machine) (i : Nat), m.lock = some i → MStep m m' →
       m' = microStep m i ∧ ∀ j, j ≠ i → m'.threads[j]? = m.threads[j]?) ∧
    (∀ (m : Machine) (i : Nat) (t : Thread), m.lock = none → m.threads[i]? = some t →
       t.pc = 0 →
       Relation.ReflTransGen MStep m (runOp m i) ∧
       (runOp m i).lock = none ∧
       (∀ j, j ≠ i → (runOp m i).threads[j]? = m.threads[j]?) ∧
       (match t.op with
        | .save k w => (runOp m i).reg = saveApplicationWorker m.reg k w ∧
            (runOp m i).threads[i]? = some { t with pc := 2 }
        | .del k => (runOp m i).reg = deleteApplicationWorker m.reg k ∧
            (runOp m i).threads[i]? = some { t with pc := 1 }
        | .get k => (runOp m i).reg = m.reg ∧
            (runOp m i).threads[i]? =
              some { t with pc := 2, ret := getApplicationWorker m.reg k })) := by
  refine ⟨machInv_preserved, ?_, ?_⟩
  · intro m m' i hlock hs
    have hforced := locked_step_forced m m' i hlock hs
    refine ⟨hforced, ?_⟩
    intro j hj
    rw [hforced]
    exact microStep_threads_ne m i j hj
  · intro m i t hlock hget hpc
    obtain ⟨op, pc, ret⟩ := t
    dsimp only at hpc
    subst hpc
    cases op with
    | save k w =>
      obtain ⟨heq, hsteps⟩ := runOp_save m i k w ret hlock hget
      dsimp only
      refine ⟨hsteps, by rw [heq], ?_, by rw [heq], ?_⟩
      · intro j hj
        rw [heq]
        exact List.getElem?_set_ne (Ne.symm hj)
      · rw [heq]
        show (m.threads.set i _)[i]? = _
        rw [List.getElem?_set_self', hget]
        rfl
    | del k =>
      obtain ⟨heq, hsteps⟩ := runOp_del m i k ret hlock hget
      dsimp only
      refine ⟨hsteps, by rw [heq], ?_, by rw [heq], ?_⟩
      · intro j hj
        rw [heq]
        exact List.getElem?_set_ne (Ne.symm hj)
      · rw [heq]
        show (m.threads.set i _)[i]? = _
        rw [List.getElem?_set_self', hget]
        rfl
    | get k =>
      obtain ⟨heq, hsteps⟩ := runOp_get m i k ret hlock hget
      dsimp only
      refine ⟨hsteps, by rw [heq], ?_, by rw [heq], ?_⟩
      · intro j hj
        rw [heq]
        exact List.getElem?_set_ne (Ne.symm hj)
      · rw [heq]
        show (m.threads.set i _)[i]? = _
        rw [List.getElem?_set_self', hget]
        rfl

/-- Witness for C8 at a concrete input: thread 0's lookup of "app1" runs to
completion from the quiescent two-caller machine and returns exactly the
atomic lookup result. -/
theorem registry_mutex_no_torn_read_witness :
    mwMachine.lock = none ∧
    mwMachine.threads[0]? = some ⟨.get "app1", 0, none⟩ ∧
    (⟨RegOp.get "app1", 0, none⟩ : Thread).pc = 0 ∧
    (Relation.ReflTransGen MStep mwMachine (runOp mwMachine 0) ∧
     (runOp mwMachine 0).lock = none ∧
     (∀ j, j ≠ 0 → (runOp mwMachine 0).threads[j]? = mwMachine.threads[j]?) ∧
     ((runOp mwMachine 0).reg = mwMachine.reg ∧
      (runOp mwMachine 0).threads[0]? =
        some ⟨.get "app1", 2, getApplicationWorker mwMachine.reg "app1"⟩)) :=
  ⟨rfl, rfl, rfl,
    registry_mutex_no_torn_read.2.2 mwMachine 0 ⟨.get "app1", 0, none⟩ rfl rfl rfl⟩

end CaasUnitProvisioner
